import Mathlib

/-!
Verification of the auto-minutes incremental pipeline (cache/manifest subsystem).

This file gives a shallow embedding, in Lean 4, of the Collect/Generate
(summarize) stage and the Assemble (output) stage of the pipeline found in
`src/index.js` and `src/publisher.js`, together with theorems settling the
stated properties of the pipeline.

Modelling conventions:
* The external collaborators (Raw Content Fetcher / transcript download,
  Generator / LLM call) are an explicit environment `Env` of pure functions;
  a fetch failure is `Option.none`, a generator exception is `Except.error`.
* The per-meeting artifact cache directory is an association list from
  sessionId to cached minutes; `writeFile` overwrites, which the list models
  by prepending (lookup finds the newest entry first).
* A generator exception propagates out of both loops of `main` to the
  top-level `catch` (which exits the process); the run state carries an
  `aborted` flag modelling this short-circuit.
* String primitives that Node provides (`split("-")`, `parseInt`, array
  indexing that yields `undefined` out of range) are re-implemented on
  `List Char` so that all definitions reduce in the kernel. JS string
  lengths and substrings count UTF-16 code units while the model counts
  characters, and `toLowerCase` is modelled in its ASCII case; the two
  agree on all identifiers and names the pipeline actually handles.
-/

namespace AutoMinutes

/-- One raw item produced by the Item Source (`fetchSessionsFrom*` in
`scraper.js`): a stable id, a display name and a recording link. -/
structure Session where
  sessionId : String
  sessionName : String
  recordingUrl : String
deriving DecidableEq, Repr

/-- A processed member recorded in the manifest: `{sessionId, recordingUrl}`
(see `main`, src/index.js:360-363). -/
structure PSession where
  sessionId : String
  recordingUrl : String
deriving DecidableEq, Repr

/-- One manifest group: `{sessionName, sessions}` (src/index.js:371-374). -/
structure Group where
  sessionName : String
  sessions : List PSession
deriving DecidableEq, Repr

/-- The artifact cache directory of one meeting: newest entry first; models
one file per `sessionId` under `cache/output/ietfN/`. -/
abbrev Cache := List (String × String)

/-- Lookup of a cached artifact; models `cacheExists`/`getCachedMinutes`
(src/publisher.js:95-131). -/
def cacheGet (cache : Cache) (sessionId : String) : Option String :=
  (cache.find? (fun e => e.1 == sessionId)).map (fun e => e.2)

/-- Write of a cached artifact; models `saveCachedMinutes`
(src/publisher.js:112-120), where `writeFile` overwrites. -/
def cachePut (cache : Cache) (sessionId minutes : String) : Cache :=
  (sessionId, minutes) :: cache

/-- The external collaborators of the Collect/Generate stage:
`downloadTranscript` (none = throw, caught per item) and `generateMinutes`
(`Except.error` = generator exception, not caught per item). -/
structure Env where
  fetchTranscript : Session → Option String
  generate : String → String → Except String String

/-- Embedding of `generateSessionMinutes` (src/index.js:37-64): cache hit
returns the cached minutes with `wasGenerated = false`; a failed transcript
download returns empty minutes; otherwise the generator runs and its output
is written to the cache. A generator exception is `Except.error`. -/
def generateSessionMinutes (env : Env) (cache : Cache) (session : Session) :
    Except String (Cache × String × Bool) :=
  match cacheGet cache session.sessionId with
  | some minutes => Except.ok (cache, minutes, false)
  | none =>
    match env.fetchTranscript session with
    | none => Except.ok (cache, "", false)
    | some transcript =>
      match env.generate transcript session.sessionName with
      | Except.error e => Except.error e
      | Except.ok minutes =>
        Except.ok (cachePut cache session.sessionId minutes, minutes, true)

/-- Mutable state of one summarize run (`main`, src/index.js:330-386):
the cache directory contents, the accumulated `sessionGroups`, the
`anyNewMinutes` flag, plus instrumentation (number of generator invocations,
number of freshly generated artifacts) and the abort flag modelling an
uncaught generator exception. -/
structure RunState where
  cache : Cache
  groups : List Group
  anyNew : Bool
  genCalls : Nat
  fresh : Nat
  aborted : Bool
deriving DecidableEq, Repr

/-- One iteration of the inner session loop (src/index.js:339-367). When the
state is aborted the remaining iterations never execute. `genCalls` counts
every entry into `generateMinutes`, also a failing one. -/
def processSession (env : Env) (st : RunState) (s : Session) (cur : List PSession) :
    RunState × List PSession :=
  if st.aborted then (st, cur)
  else
    match generateSessionMinutes env st.cache s with
    | Except.error _ =>
      ({ st with genCalls := st.genCalls + 1, aborted := true }, cur)
    | Except.ok (cache', minutes, wasGenerated) =>
      let st' := { st with
        cache := cache'
        genCalls := st.genCalls + (if wasGenerated then 1 else 0)
        fresh := st.fresh + (if wasGenerated then 1 else 0)
        anyNew := st.anyNew || wasGenerated }
      if minutes = "" then (st', cur)
      else (st', cur ++ [⟨s.sessionId, s.recordingUrl⟩])

/-- The inner session loop over one group's sessions. -/
def processSessions (env : Env) (p : RunState × List PSession) (l : List Session) :
    RunState × List PSession :=
  l.foldl (fun q s => processSession env q.1 s q.2) p

/-- One iteration of the outer group loop (src/index.js:333-376): run the
inner loop starting from an empty `processedSessions` list, then push the
group onto `sessionGroups` only if at least one session was processed and
no exception escaped. -/
def processGroup (env : Env) (st : RunState) (sessionName : String) (grp : List Session) :
    RunState :=
  let r := processSessions env (st, []) grp
  if r.1.aborted then r.1
  else if r.2.length > 0 then
    { r.1 with groups := r.1.groups ++ [⟨sessionName, r.2⟩] }
  else r.1

/-- One step of building the `sessionsByName` map (src/index.js:322-328):
append the session to its name's list if present, else add a new entry at
the end (JS `Map` preserves insertion order). -/
def insertByName (acc : List (String × List Session)) (s : Session) :
    List (String × List Session) :=
  if acc.any (fun p => p.1 == s.sessionName) then
    acc.map (fun p => if p.1 == s.sessionName then (p.1, p.2 ++ [s]) else p)
  else acc ++ [(s.sessionName, [s])]

/-- The grouping of the session list by display name (src/index.js:321-328). -/
def groupByName (sessions : List Session) : List (String × List Session) :=
  sessions.foldl insertByName []

/-- Result of one summarize run: the final state and the manifest passed to
`saveCacheManifest`, if that call happened (`none` = the manifest file was
left untouched). -/
structure RunOutcome where
  state : RunState
  savedManifest : Option (List Group)
deriving DecidableEq, Repr

/-- Embedding of the summarize stage of `main` (src/index.js:305-386):
group the sessions by name, run the two nested loops, then save the
manifest only when `anyNewMinutes` is set and no exception aborted the
stage (an exception reaches the top-level catch, src/index.js:456-459,
and the save on line 381 never runs). -/
def runSummarize (env : Env) (cache : Cache) (sessions : List Session) : RunOutcome :=
  let st0 : RunState :=
    { cache := cache, groups := [], anyNew := false, genCalls := 0, fresh := 0,
      aborted := false }
  let st := (groupByName sessions).foldl (fun st p => processGroup env st p.1 p.2) st0
  if st.aborted then { state := st, savedManifest := none }
  else if st.anyNew then { state := st, savedManifest := some st.groups }
  else { state := st, savedManifest := none }

/-! ### parseSessionId (src/index.js:72-111) and its JS string primitives -/

/-- Splitting of a character list at `-`, modelling JS `sessionId.split("-")`
(always at least one, possibly empty, segment). -/
def splitDash (cs : List Char) : List (List Char) :=
  cs.foldr
    (fun c acc =>
      match acc with
      | [] => if c = '-' then [[], []] else [[c]]
      | cur :: rest => if c = '-' then [] :: cur :: rest else (c :: cur) :: rest)
    [[]]

/-- JS array indexing `l[i]`: `undefined` (here `none`) for an out-of-range
or negative index. -/
def jsAt (l : List String) (i : Int) : Option String :=
  if 0 ≤ i then l.get? i.toNat else none

/-- Value of a digit string, most significant first. -/
def digitsVal (ds : List Char) : Nat :=
  ds.foldl (fun a c => a * 10 + (c.toNat - '0'.toNat)) 0

/-- JS `parseInt(s, 10)`: skip leading whitespace, read an optional sign and
then the longest digit run; `NaN` (here `none`) if no digit follows. -/
def jsParseInt (s : String) : Option Int :=
  let cs := s.data.dropWhile (fun c => c.isWhitespace)
  let signAndRest : Int × List Char :=
    match cs with
    | '+' :: rest => (1, rest)
    | '-' :: rest => (-1, rest)
    | rest => (1, rest)
  let ds := signAndRest.2.takeWhile (fun c => c.isDigit)
  if ds.isEmpty then none else some (signAndRest.1 * (digitsVal ds : Int))

/-- The `monthNames` array of `parseSessionId` (src/index.js:90-103). -/
def monthNames : List String :=
  ["Jan", "Feb", "Mar", "Apr", "May", "Jun", "Jul", "Aug", "Sep", "Oct", "Nov", "Dec"]

/-- The boolean guard of src/index.js:83: both timestamp segments exist, are
truthy (non-empty) and have the expected lengths (8 and 4). -/
def timestampShapeOk (dateStr timeStr : Option String) : Bool :=
  match dateStr, timeStr with
  | some d, some t =>
    (!(d == "")) && (!(t == "")) && (d.length == 8) && (t.length == 4)
  | _, _ => false

/-- The `dateTimeHeader` computation of `parseSessionId`
(src/index.js:82-108), as a function of the two timestamp segments.
`monthNames[parseInt(month,10)-1]` renders as the string `undefined` when
the index is `NaN` or out of range, exactly as the JS template literal
does. -/
def dateTimeHeaderOf (dateStr timeStr : Option String) : String :=
  match dateStr, timeStr with
  | some d, some t =>
    if (!(d == "")) && (!(t == "")) && (d.length == 8) && (t.length == 4) then
      let year := String.mk (d.data.take 4)
      let month := String.mk ((d.data.drop 4).take 2)
      let day := String.mk (d.data.drop 6)
      let hour := String.mk (t.data.take 2)
      let minute := String.mk (t.data.drop 2)
      let monthName :=
        match jsParseInt month with
        | none => "undefined"
        | some v => (jsAt monthNames (v - 1)).getD "undefined"
      "**Session Date/Time:** " ++ day ++ " " ++ monthName ++ " " ++ year ++ " " ++
        hour ++ ":" ++ minute ++ "\n\n"
    else ""
  | _, _ => ""

/-- Embedding of `parseSessionId` (src/index.js:72-111). Returns
`(sessionName, dateTimeHeader)`. `parts[parts.length-2]` is taken with JS
indexing (`undefined` below index 0). -/
def parseSessionId (sessionId : String) : String × String :=
  let parts : List String := (splitDash sessionId.data).map (fun cs => String.mk cs)
  let dateStr := jsAt parts ((parts.length : Int) - 2)
  let timeStr := jsAt parts ((parts.length : Int) - 1)
  let sessionName :=
    String.intercalate "-" ((parts.take (parts.length - 2)).drop 1)
  (sessionName, dateTimeHeaderOf dateStr timeStr)

/-- The shape check of src/index.js:83 applied to a whole session id: true
exactly when the last two `-`-separated segments look like `YYYYMMDD` and
`HHMM` by length. -/
def sessionIdShapeOk (sessionId : String) : Bool :=
  let parts : List String := (splitDash sessionId.data).map (fun cs => String.mk cs)
  timestampShapeOk (jsAt parts ((parts.length : Int) - 2))
    (jsAt parts ((parts.length : Int) - 1))

/-! ### Assemble / output stage (src/index.js:388-447, src/publisher.js) -/

/-- Embedding of `loadCacheManifest` (src/publisher.js:179-186): `readFile`
of `.manifest.json` throws `ENOENT` when the manifest was never saved. The
per-meeting manifest store is a function from meeting number. -/
def loadCacheManifest (manifests : Nat → Option (List Group)) (m : Nat) :
    Except String (List Group) :=
  match manifests m with
  | none => Except.error "ENOENT: .manifest.json"
  | some groups => Except.ok groups

/-- Embedding of `getCachedMinutes` (src/publisher.js:128-131) as used by
the output stage: `readFile` throws when the cached artifact is absent. -/
def getCachedMinutes (minutes : Nat → String → Option String) (m : Nat)
    (sessionId : String) : Except String String :=
  match minutes m sessionId with
  | none => Except.error "ENOENT: cached minutes"
  | some s => Except.ok s

/-- The inner loop of the output stage over one group's members
(src/index.js:413-421): read each cached artifact in stored order, public
header first; the first missing artifact aborts (uncaught exception). -/
def assembleItems (minutes : Nat → String → Option String) (m : Nat) :
    List PSession → Except String (List (String × String))
  | [] => Except.ok []
  | s :: rest =>
    match getCachedMinutes minutes m s.sessionId with
    | Except.error e => Except.error e
    | Except.ok mi =>
      match assembleItems minutes m rest with
      | Except.error e => Except.error e
      | Except.ok items =>
        Except.ok (((parseSessionId s.sessionId).2 ++ mi, s.recordingUrl) :: items)

/-- Combination for one group (src/index.js:410-424): the headed artifacts
joined with the fixed separator, plus the collected recording links. -/
def assembleGroup (minutes : Nat → String → Option String) (m : Nat) (g : Group) :
    Except String (String × List String) :=
  match assembleItems minutes m g.sessions with
  | Except.error e => Except.error e
  | Except.ok items =>
    Except.ok
      (String.intercalate "\n\n---\n\n" (items.map (fun it => it.1)),
       items.map (fun it => it.2))

/-- The group loop of the output stage for one meeting (src/index.js:407-435). -/
def assembleGroups (minutes : Nat → String → Option String) (m : Nat) :
    List Group → Except String (List (String × String × List String))
  | [] => Except.ok []
  | g :: rest =>
    match assembleGroup minutes m g with
    | Except.error e => Except.error e
    | Except.ok r =>
      match assembleGroups minutes m rest with
      | Except.error e => Except.error e
      | Except.ok out => Except.ok ((g.sessionName, r.1, r.2) :: out)

/-- The per-meeting body of the output stage (src/index.js:398-441): load the
manifest, then assemble every group. A missing manifest is an error, not a
skip. -/
def assembleMeeting (manifests : Nat → Option (List Group))
    (minutes : Nat → String → Option String) (m : Nat) :
    Except String (List (String × String × List String)) :=
  match loadCacheManifest manifests m with
  | Except.error e => Except.error e
  | Except.ok groups => assembleGroups minutes m groups

/-- The meeting loop of the output stage (src/index.js:393-441): meetings
are handled sequentially; the first uncaught error aborts the whole stage
(top-level catch, src/index.js:456-459). -/
def runOutput (manifests : Nat → Option (List Group))
    (minutes : Nat → String → Option String) :
    List Nat → Except String (List (Nat × List (String × String × List String)))
  | [] => Except.ok []
  | m :: rest =>
    match assembleMeeting manifests minutes m with
    | Except.error e => Except.error e
    | Except.ok files =>
      match runOutput manifests minutes rest with
      | Except.error e => Except.error e
      | Except.ok out => Except.ok ((m, files) :: out)

/-! ### Publisher: filenames, output files, manifest write, cache scan -/

/-- A character kept by the sanitizer: lowercase ASCII letter or digit
(the complement of the regex `[^a-z0-9]`). -/
def keepChar (c : Char) : Bool := c.isLower || c.isDigit

/-- One step of the global replacement of `[^a-z0-9]+` runs by `-`: the flag
records whether the previous character already belonged to a replaced run. -/
def collapseStep (acc : List Char × Bool) (c : Char) : List Char × Bool :=
  if keepChar c then (acc.1 ++ [c], false)
  else if acc.2 then acc
  else (acc.1 ++ ['-'], true)

/-- Replacement of every maximal run of non-kept characters by one hyphen. -/
def collapseRuns (cs : List Char) : List Char :=
  (cs.foldl collapseStep ([], false)).1

/-- Removal of leading and trailing hyphen runs (the regex `^-+|-+$`). -/
def trimEdgeHyphens (cs : List Char) : List Char :=
  ((cs.dropWhile (fun c => c == '-')).reverse.dropWhile (fun c => c == '-')).reverse

/-- Embedding of `sanitizeSessionName` (src/publisher.js:19-24): lowercase,
collapse each run of non-alphanumerics to `-`, strip edge hyphens. The
lowercase step is the ASCII case of JS `toLowerCase`. -/
def sanitizeSessionName (sessionName : String) : String :=
  String.mk (trimEdgeHyphens (collapseRuns (sessionName.data.map Char.toLower)))

/-- The recording-link portion of the header built by `saveMinutes`
(src/publisher.js:211-222). -/
def recordingLinksHeader (recordingUrls : List String) : String :=
  if recordingUrls.length > 0 then
    if recordingUrls.length = 1 then
      " | [Session Recording](" ++ recordingUrls.headD "" ++ ")"
    else
      " | " ++ String.intercalate " | "
        (recordingUrls.enum.map
          (fun p => "[Recording " ++ toString (p.1 + 1) ++ "](" ++ p.2 ++ ")"))
  else ""

/-- Embedding of `saveMinutes` (src/publisher.js:195-234) as the list of
`(path, content)` writes it performs, in order; `path.join` is modelled by
`/`-concatenation. -/
def saveMinutesFiles (sessionName content outputDir : String)
    (recordingUrls : List String) : List (String × String) :=
  let sanitizedName := sanitizeSessionName sessionName
  let txtFilename := sanitizedName ++ ".txt"
  let header := "[Markdown Version](" ++ txtFilename ++ ")" ++
    recordingLinksHeader recordingUrls
  let contentWithLink := header ++ "\n\n" ++ content
  [(outputDir ++ "/" ++ sanitizedName ++ ".md", contentWithLink),
   (outputDir ++ "/" ++ sanitizedName ++ ".txt", content)]

/-- A flat file system: newest write first; `none` records a deletion. -/
abbrev Fs := List (String × Option String)

/-- Content visible at a path. -/
def fsGet (fs : Fs) (p : String) : Option String :=
  match fs.find? (fun e => e.1 == p) with
  | some e => e.2
  | none => none

/-- Overwriting write of one file. -/
def fsSet (fs : Fs) (p c : String) : Fs := (p, some c) :: fs

/-- Application of a list of `(path, content)` writes in order. -/
def fsWriteAll (fs : Fs) (writes : List (String × String)) : Fs :=
  writes.foldl (fun f w => fsSet f w.1 w.2) fs

/-- File-system operations the manifest writer can perform. -/
inductive FsOp where
  | mkdirRec (path : String)
  | write (path content : String)
  | rename (src dst : String)
deriving DecidableEq, Repr

/-- Whether an operation is a rename. -/
def isRename : FsOp → Bool
  | FsOp.rename _ _ => true
  | _ => false

/-- Effect of one completed operation: `mkdirRec` touches no file content,
`write` replaces the file, `rename` moves content atomically. -/
def applyOp (fs : Fs) : FsOp → Fs
  | FsOp.mkdirRec _ => fs
  | FsOp.write p c => fsSet fs p c
  | FsOp.rename src dst =>
    match fsGet fs src with
    | some c => (src, none) :: fsSet fs dst c
    | none => fs

/-- Contents observable at path `p` while one operation is in flight: a plain
`writeFile` is not atomic — it truncates and then appends, so every byte
count of the new content can be observed at the target; `mkdirRec` and
`rename` expose no intermediate content. -/
def midContentsAt (p : String) : FsOp → List (Option String)
  | FsOp.write q c =>
    if q == p then (List.range (c.length + 1)).map (fun k => some (String.mk (c.data.take k)))
    else []
  | _ => []

/-- Every content observable at path `p` at some moment of executing the
operation list, the initial and all intermediate and final states included. -/
def observedAt (p : String) (fs : Fs) : List FsOp → List (Option String)
  | [] => [fsGet fs p]
  | op :: rest => fsGet fs p :: midContentsAt p op ++ observedAt p (applyOp fs op) rest

/-- Cache directory of a meeting (`getCacheDir`, src/publisher.js:50-52). -/
def getCacheDir (meetingNumber : Nat) : String :=
  "cache/output/ietf" ++ toString meetingNumber

/-- Path of a meeting's manifest file (src/publisher.js:159). -/
def manifestPath (meetingNumber : Nat) : String :=
  getCacheDir meetingNumber ++ "/.manifest.json"

/-- Embedding of `saveCacheManifest` (src/publisher.js:155-172) as the list
of file-system operations it performs: `mkdir -p` on the cache directory and
then one direct `writeFile` of the serialized manifest to its final path.
The JSON serialization (`JSON.stringify` of the timestamp and groups) is
abstracted as the `content` argument; no temporary file and no rename is
involved. -/
def saveCacheManifestOps (meetingNumber : Nat) (content : String) : List FsOp :=
  [FsOp.mkdirRec (getCacheDir meetingNumber),
   FsOp.write (manifestPath meetingNumber) content]

/-! ### Cache scan and root index (src/publisher.js:58-77, 297-348) -/

/-- One directory entry as returned by `readdir` with file types. -/
structure DirEntry where
  name : String
  isDir : Bool
deriving DecidableEq, Repr

/-- The regex match `^ietf(\d+)$` followed by `parseInt(match[1], 10)`:
some number exactly when the name is `ietf` followed by one or more digits. -/
def parseIetfDir (name : String) : Option Nat :=
  if name.data.take 4 = ['i', 'e', 't', 'f'] then
    let rest := name.data.drop 4
    if rest ≠ [] ∧ rest.all (fun c => c.isDigit) then some (digitsVal rest) else none
  else none

/-- The name filter used before the regex: `entry.name.startsWith("ietf")`. -/
def startsWithIetf (name : String) : Bool :=
  name.data.take 4 == ['i', 'e', 't', 'f']

/-- Embedding of `getCachedMeetingNumbers` (src/publisher.js:58-77): keep
the `ietfN` directories, parse the numbers, sort ascending with the numeric
comparator `(a, b) => a - b`. -/
def getCachedMeetingNumbers (entries : List DirEntry) : List Nat :=
  List.insertionSort (fun a b => a ≤ b)
    ((entries.filter (fun e => e.isDir && startsWithIetf e.name)).filterMap
      (fun e => parseIetfDir e.name))

/-- The meeting scan of `generateRootIndex` (src/publisher.js:307-317):
same shape as the cache scan, numeric ascending sort — but it runs over the
entries of `generateRootIndex`'s `outputDir` parameter, which `main` leaves
at its default value `site` (src/index.js:445, src/publisher.js:298). It
does not read the cache directory, and it does not read `site/minutes`,
which is where the output stage places its per-meeting directories
(src/index.js:400). -/
def rootIndexMeetings (entries : List DirEntry) : List Nat :=
  List.insertionSort (fun a b => a ≤ b)
    ((entries.filter (fun e => e.isDir && startsWithIetf e.name)).filterMap
      (fun e => parseIetfDir e.name))

/-- The meetings section rendered by `generateRootIndex`
(src/publisher.js:322-330): one link line per meeting in list order. -/
def rootMeetingsList (meetings : List Nat) : String :=
  if meetings.length > 0 then
    meetings.foldl
      (fun acc n =>
        acc ++ "- [IETF " ++ toString n ++ "](minutes/ietf" ++ toString n ++
          "/index.html)\n")
      ""
  else "No meetings processed yet.\n"

/-- The meetings section as produced by the `generateRootIndex()` call of
`main` (src/index.js:445): the scan of the `site` directory's own entries,
rendered. -/
def generateRootIndexSection (siteEntries : List DirEntry) : String :=
  rootMeetingsList (rootIndexMeetings siteEntries)

/-! ### Where the output stage writes, versus where the root index scans -/

/-- Removal of a leading run of expected characters: `some` the remainder
when `expected` is an initial run of `p`, `none` otherwise. -/
def stripLead (expected p : List Char) : Option (List Char) :=
  match expected, p with
  | [], rest => some rest
  | _ :: _, [] => none
  | a :: expected', b :: p' => if a = b then stripLead expected' p' else none

/-- The name a `readdir(dir)` would list for the path `p`: the first
`/`-separated segment of `p` below `dir`, or `none` when `p` does not lie
below `dir`. -/
def childNameIn (dir p : String) : Option String :=
  match stripLead (dir ++ "/").data p.data with
  | none => none
  | some rest => some (String.mk (rest.takeWhile (fun c => !(c == '/'))))

/-- All entry names a `readdir(dir)` would list for a set of written paths. -/
def childrenIn (dir : String) (paths : List String) : List String :=
  paths.filterMap (fun p => childNameIn dir p)

/-- The output directory the output stage passes to `saveMinutes` and
`generateIndex` for one meeting (src/index.js:400). -/
def meetingOutputDir (meetingNum : Nat) : String :=
  "site/minutes/ietf" ++ toString meetingNum

/-- The paths one meeting's pass of the output stage writes
(src/index.js:398-441): per group the `.md` and `.txt` files of
`saveMinutes` (src/publisher.js:227-233), then `index.md` and
`.manifest.json` of `generateIndex` (src/publisher.js:270-286), all under
`site/minutes/ietfN`. -/
def meetingOutputPaths (meetingNum : Nat) (groupNames : List String) : List String :=
  (groupNames.map (fun n =>
    meetingOutputDir meetingNum ++ "/" ++ sanitizeSessionName n ++ ".md")) ++
  (groupNames.map (fun n =>
    meetingOutputDir meetingNum ++ "/" ++ sanitizeSessionName n ++ ".txt")) ++
  [meetingOutputDir meetingNum ++ "/index.md",
   meetingOutputDir meetingNum ++ "/.manifest.json"]

/-- The destination of the root index itself (src/publisher.js:299). -/
def rootIndexDest : String := "site/index.md"

/-- Invariant tying the `anyNewMinutes` flag to the count of freshly
generated artifacts. -/
def flagMatchesFresh (st : RunState) : Prop := st.anyNew = true ↔ 0 < st.fresh

/-- The initial state of a summarize run. -/
def initState (cache : Cache) : RunState :=
  { cache := cache, groups := [], anyNew := false, genCalls := 0, fresh := 0,
    aborted := false }

/-- The final state of the group loop of a summarize run. -/
def finalState (env : Env) (cache : Cache) (sessions : List Session) : RunState :=
  (groupByName sessions).foldl (fun st p => processGroup env st p.1 p.2) (initState cache)

/-! ### Concrete fixtures used by witnesses and counterexamples -/

/-- Environment whose fetches all succeed and whose generator fails for
every group except the one named `W2`. -/
def envC3 : Env :=
  ⟨fun _ => some "transcript",
   fun _ name => if name = "W2" then Except.ok "fine" else Except.error "model error"⟩

/-- Environment where every fetch and every generation succeeds. -/
def envOk : Env :=
  ⟨fun s => some ("T" ++ s.sessionId), fun t _ => Except.ok ("M" ++ t)⟩

/-- Environment where every fetch fails. -/
def envFetchFail : Env := ⟨fun _ => none, fun _ _ => Except.error "unreachable"⟩

/-- Environment where only session id `A1` has a fetchable transcript. -/
def envOnlyA1 : Env :=
  ⟨fun s => if s.sessionId = "A1" then some "TA1" else none,
   fun t _ => Except.ok ("M" ++ t)⟩

/-! ### Helper lemmas: the summarize loops -/

theorem processSession_of_aborted (env : Env) (st : RunState) (s : Session)
    (cur : List PSession) (h : st.aborted = true) :
    processSession env st s cur = (st, cur) := by
  simp [processSession, h]

theorem processSession_hit (env : Env) (st : RunState) (s : Session)
    (cur : List PSession) (m : String) (h : cacheGet st.cache s.sessionId = some m) :
    (processSession env st s cur).1 = st := by
  by_cases ha : st.aborted = true
  · simp [processSession, ha]
  · simp only [Bool.not_eq_true] at ha
    cases st with
    | mk cache groups anyNew genCalls fresh aborted =>
      simp only [processSession, ha, generateSessionMinutes, h, Bool.false_eq_true,
        if_false]
      by_cases hm : m = "" <;> simp [hm, ha] <;> split <;> rfl

theorem processSession_unavailable (env : Env) (st : RunState) (s : Session)
    (cur : List PSession) (hc : cacheGet st.cache s.sessionId = none)
    (hf : env.fetchTranscript s = none) :
    processSession env st s cur = (st, cur) := by
  by_cases ha : st.aborted = true
  · simp [processSession, ha]
  · simp only [Bool.not_eq_true] at ha
    cases st with
    | mk cache groups anyNew genCalls fresh aborted =>
      simp [processSession, ha, generateSessionMinutes, hc, hf]

theorem processSessions_append (env : Env) (p : RunState × List PSession)
    (l1 l2 : List Session) :
    processSessions env p (l1 ++ l2) = processSessions env (processSessions env p l1) l2 := by
  simp [processSessions, List.foldl_append]

theorem processSessions_hits (env : Env) (st : RunState) (l : List Session) :
    (∀ s ∈ l, (cacheGet st.cache s.sessionId).isSome) →
    ∀ cur, (processSessions env (st, cur) l).1 = st := by
  induction l with
  | nil => intro _ cur; simp [processSessions]
  | cons s t ih =>
    intro h cur
    have hs := h s (by simp)
    obtain ⟨m, hm⟩ := Option.isSome_iff_exists.mp hs
    have h1 : (processSession env st s cur).1 = st := processSession_hit env st s cur m hm
    have : processSessions env (st, cur) (s :: t) =
        processSessions env (processSession env st s cur) t := by
      simp [processSessions]
    rw [this]
    have hrw : processSession env st s cur = (st, (processSession env st s cur).2) := by
      exact Prod.ext h1 rfl
    rw [hrw]
    exact ih (fun x hx => h x (by simp [hx])) _

theorem processGroup_eq (env : Env) (st : RunState) (name : String)
    (grp : List Session) :
    processGroup env st name grp =
      (if (processSessions env (st, []) grp).1.aborted = true then
        (processSessions env (st, []) grp).1
      else if (processSessions env (st, []) grp).2.length > 0 then
        { (processSessions env (st, []) grp).1 with
          groups := (processSessions env (st, []) grp).1.groups ++
            [⟨name, (processSessions env (st, []) grp).2⟩] }
      else (processSessions env (st, []) grp).1) := rfl

theorem processGroup_hits (env : Env) (st : RunState) (name : String)
    (grp : List Session) (h : ∀ s ∈ grp, (cacheGet st.cache s.sessionId).isSome) :
    (processGroup env st name grp).cache = st.cache ∧
    (processGroup env st name grp).genCalls = st.genCalls ∧
    (processGroup env st name grp).fresh = st.fresh ∧
    (processGroup env st name grp).anyNew = st.anyNew ∧
    (processGroup env st name grp).aborted = st.aborted := by
  have h1 : (processSessions env (st, []) grp).1 = st := processSessions_hits env st grp h []
  rw [processGroup_eq, h1]
  split
  · exact ⟨rfl, rfl, rfl, rfl, rfl⟩
  · split <;> exact ⟨rfl, rfl, rfl, rfl, rfl⟩

/-! ### Helper lemmas: the grouping map -/

theorem groupByName_snoc (l : List Session) (s : Session) :
    groupByName (l ++ [s]) = insertByName (groupByName l) s := by
  simp [groupByName, List.foldl_append]

theorem groupByName_invariant (l : List Session) :
    (∀ p ∈ groupByName l, p.2 = l.filter (fun t => t.sessionName == p.1)) ∧
    (∀ t ∈ l, t.sessionName ∈ (groupByName l).map Prod.fst) ∧
    (∀ n ∈ (groupByName l).map Prod.fst, ∃ t ∈ l, t.sessionName = n) ∧
    ((groupByName l).map Prod.fst).Nodup := by
  induction l using List.reverseRecOn with
  | nil => simp [groupByName]
  | append_singleton l s ih =>
    obtain ⟨ihv, ihc, ihk, ihn⟩ := ih
    rw [groupByName_snoc]
    unfold insertByName
    by_cases hmem : (groupByName l).any (fun p => p.1 == s.sessionName)
    · rw [if_pos hmem]
      have hkeys : ((groupByName l).map
          (fun p => if p.1 == s.sessionName then (p.1, p.2 ++ [s]) else p)).map Prod.fst =
          (groupByName l).map Prod.fst := by
        rw [List.map_map]
        apply List.map_congr_left
        intro p _
        by_cases hp : p.1 == s.sessionName
        · rw [beq_iff_eq] at hp
          simp [hp]
        · have hne : ¬p.1 = s.sessionName := by
            rw [beq_iff_eq] at hp
            exact hp
          simp [hp, hne]
      refine ⟨?_, ?_, ?_, ?_⟩
      · intro p hp
        rw [List.mem_map] at hp
        obtain ⟨q, hq, hpq⟩ := hp
        by_cases hqn : q.1 == s.sessionName
        · rw [if_pos hqn] at hpq
          subst hpq
          simp only [List.filter_append]
          rw [← ihv q hq]
          have : s.sessionName == q.1 := by
            rw [beq_iff_eq] at hqn ⊢
            exact hqn.symm
          simp [this]
        · rw [if_neg hqn] at hpq
          subst hpq
          simp only [List.filter_append]
          rw [← ihv q hq]
          have : ¬(s.sessionName == q.1) := by
            rw [beq_iff_eq] at hqn ⊢
            exact fun hh => hqn hh.symm
          simp [this]
      · intro t ht
        rw [hkeys]
        rcases List.mem_append.mp ht with hl | hs
        · exact ihc t hl
        · rw [List.mem_singleton] at hs
          subst hs
          rw [List.any_eq_true] at hmem
          obtain ⟨p, hp, hpn⟩ := hmem
          rw [beq_iff_eq] at hpn
          rw [← hpn]
          exact List.mem_map_of_mem Prod.fst hp
      · intro n hn
        rw [hkeys] at hn
        obtain ⟨t, ht, htn⟩ := ihk n hn
        exact ⟨t, by simp [ht], htn⟩
      · rw [hkeys]; exact ihn
    · rw [if_neg hmem]
      have hnotkey : s.sessionName ∉ (groupByName l).map Prod.fst := by
        intro hc
        rw [List.mem_map] at hc
        obtain ⟨p, hp, hpn⟩ := hc
        apply hmem
        rw [List.any_eq_true]
        exact ⟨p, hp, by rw [beq_iff_eq]; exact hpn⟩
      refine ⟨?_, ?_, ?_, ?_⟩
      · intro p hp
        rcases List.mem_append.mp hp with hl | hs
        · simp only [List.filter_append]
          rw [← ihv p hl]
          have : ¬(s.sessionName == p.1) := by
            rw [beq_iff_eq]
            intro hh
            exact hnotkey (hh ▸ List.mem_map_of_mem Prod.fst hl)
          simp [this]
        · rw [List.mem_singleton] at hs
          subst hs
          simp only [List.filter_append]
          have hfl : l.filter (fun t => t.sessionName == s.sessionName) = [] := by
            rw [List.filter_eq_nil_iff]
            intro t ht hc
            rw [beq_iff_eq] at hc
            exact hnotkey (hc ▸ ihc t ht)
          simp [hfl]
      · intro t ht
        rcases List.mem_append.mp ht with hl | hs
        · rw [List.map_append]
          exact List.mem_append.mpr (Or.inl (ihc t hl))
        · rw [List.mem_singleton] at hs
          subst hs
          simp
      · intro n hn
        rw [List.map_append] at hn
        rcases List.mem_append.mp hn with hl | hs
        · obtain ⟨t, ht, htn⟩ := ihk n hl
          exact ⟨t, by simp [ht], htn⟩
        · simp only [List.map_cons, List.map_nil, List.mem_singleton] at hs
          exact ⟨s, by simp, hs.symm⟩
      · rw [List.map_append]
        simp only [List.map_cons, List.map_nil]
        rw [List.nodup_append]
        exact ⟨ihn, List.nodup_singleton _, by
          intro a ha hb
          rw [List.mem_singleton] at hb
          subst hb
          exact hnotkey ha⟩

theorem groupByName_values (l : List Session) :
    ∀ p ∈ groupByName l, p.2 = l.filter (fun t => t.sessionName == p.1) :=
  (groupByName_invariant l).1

theorem groupByName_member_mem (l : List Session) :
    ∀ p ∈ groupByName l, ∀ s ∈ p.2, s ∈ l := by
  intro p hp s hs
  rw [groupByName_values l p hp] at hs
  exact (List.mem_filter.mp hs).1

/-! ### Helper lemmas: the new-content flag counts fresh generations -/

theorem processSession_flag (env : Env) (st : RunState) (s : Session)
    (cur : List PSession) (h : flagMatchesFresh st) :
    flagMatchesFresh (processSession env st s cur).1 := by
  unfold processSession
  by_cases ha : st.aborted = true
  · simpa [ha]
  · simp only [Bool.not_eq_true] at ha
    rw [if_neg (by simp [ha])]
    rcases hg : generateSessionMinutes env st.cache s with e | ⟨c, m, w⟩
    · simpa [flagMatchesFresh]
    · cases w
      · by_cases hm : m = "" <;>
          simpa [hm, flagMatchesFresh] using h
      · by_cases hm : m = "" <;>
          simp [hm, flagMatchesFresh]

theorem processSessions_flag (env : Env) (l : List Session) :
    ∀ st cur, flagMatchesFresh st → flagMatchesFresh (processSessions env (st, cur) l).1 := by
  induction l with
  | nil => intro st cur h; simpa [processSessions]
  | cons s t ih =>
    intro st cur h
    have hstep : processSessions env (st, cur) (s :: t) =
        processSessions env (processSession env st s cur) t := by
      simp [processSessions]
    rw [hstep]
    exact ih _ _ (processSession_flag env st s cur h)

theorem processGroup_flag (env : Env) (st : RunState) (name : String)
    (grp : List Session) (h : flagMatchesFresh st) :
    flagMatchesFresh (processGroup env st name grp) := by
  rw [processGroup_eq]
  have h1 := processSessions_flag env grp st [] h
  split
  · exact h1
  · split
    · exact h1
    · exact h1

theorem foldGroups_flag (env : Env) (G : List (String × List Session)) :
    ∀ st, flagMatchesFresh st →
      flagMatchesFresh (G.foldl (fun st p => processGroup env st p.1 p.2) st) := by
  induction G with
  | nil => intro st h; simpa
  | cons g t ih =>
    intro st h
    simp only [List.foldl_cons]
    exact ih _ (processGroup_flag env st g.1 g.2 h)

/-! ### Helper lemmas: shape of a summarize run's outcome -/

theorem runSummarize_state (env : Env) (cache : Cache) (sessions : List Session) :
    (runSummarize env cache sessions).state = finalState env cache sessions := by
  simp only [runSummarize, finalState, initState]
  split
  · rfl
  · split
    · rfl
    · rfl

theorem runSummarize_savedManifest (env : Env) (cache : Cache) (sessions : List Session) :
    (runSummarize env cache sessions).savedManifest =
      (if (finalState env cache sessions).aborted = true then none
       else if (finalState env cache sessions).anyNew = true then
         some (finalState env cache sessions).groups
       else none) := by
  simp only [runSummarize, finalState, initState]
  split
  · rfl
  · split
    · rfl
    · rfl

theorem runSummarize_flag (env : Env) (cache : Cache) (sessions : List Session) :
    flagMatchesFresh (finalState env cache sessions) := by
  apply foldGroups_flag
  simp [flagMatchesFresh, initState]

theorem runSummarize_saved_iff_fresh (env : Env) (cache : Cache) (sessions : List Session)
    (h : (runSummarize env cache sessions).state.aborted = false) :
    (runSummarize env cache sessions).savedManifest.isSome ↔
      0 < (runSummarize env cache sessions).state.fresh := by
  rw [runSummarize_state] at h ⊢
  rw [runSummarize_savedManifest]
  rw [if_neg (by rw [h]; exact Bool.false_ne_true)]
  have hf := runSummarize_flag env cache sessions
  unfold flagMatchesFresh at hf
  by_cases hn : (finalState env cache sessions).anyNew = true
  · simp [hn, hf.mp hn]
  · simp only [Bool.not_eq_true] at hn
    have hzero : ¬0 < (finalState env cache sessions).fresh := by
      intro hc
      have hcontra := hf.mpr hc
      rw [hn] at hcontra
      exact absurd hcontra Bool.false_ne_true
    simp [hn, hzero]

theorem foldGroups_hits (env : Env) (G : List (String × List Session)) :
    ∀ st, (∀ p ∈ G, ∀ s ∈ p.2, (cacheGet st.cache s.sessionId).isSome) →
      (G.foldl (fun st p => processGroup env st p.1 p.2) st).cache = st.cache ∧
      (G.foldl (fun st p => processGroup env st p.1 p.2) st).genCalls = st.genCalls ∧
      (G.foldl (fun st p => processGroup env st p.1 p.2) st).fresh = st.fresh ∧
      (G.foldl (fun st p => processGroup env st p.1 p.2) st).anyNew = st.anyNew ∧
      (G.foldl (fun st p => processGroup env st p.1 p.2) st).aborted = st.aborted := by
  induction G with
  | nil => intro st _; exact ⟨rfl, rfl, rfl, rfl, rfl⟩
  | cons g t ih =>
    intro st h
    simp only [List.foldl_cons]
    have hg := processGroup_hits env st g.1 g.2 (h g (by simp) )
    obtain ⟨hc, hgc, hfr, han, hab⟩ := hg
    have ht := ih (processGroup env st g.1 g.2)
      (by
        intro p hp s hs
        rw [hc]
        exact h p (by simp [hp]) s hs)
    obtain ⟨tc, tgc, tfr, tan, tab⟩ := ht
    exact ⟨tc.trans hc, tgc.trans hgc, tfr.trans hfr, tan.trans han, tab.trans hab⟩

/-! ### Claim C1: idempotence of Collect/Generate -/

/-- C1. Idempotence of Collect/Generate: when the artifact cache already
holds an artifact for every listed item, running the summarize stage invokes
the Generator zero times, writes nothing to the cache and leaves the
persisted manifest untouched; and in every run that is not aborted by a
generator exception, the manifest is saved exactly when at least one
artifact was freshly generated in that run. -/
theorem collect_generate_idempotent (env : Env) (cache : Cache)
    (sessions : List Session)
    (h : ∀ s ∈ sessions, (cacheGet cache s.sessionId).isSome) :
    (runSummarize env cache sessions).state.genCalls = 0 ∧
    (runSummarize env cache sessions).savedManifest = none ∧
    (runSummarize env cache sessions).state.cache = cache ∧
    (runSummarize env cache sessions).state.aborted = false ∧
    ∀ env2 cache2 sessions2,
      (runSummarize env2 cache2 sessions2).state.aborted = false →
      ((runSummarize env2 cache2 sessions2).savedManifest.isSome ↔
        0 < (runSummarize env2 cache2 sessions2).state.fresh) := by
  have hmem : ∀ p ∈ groupByName sessions, ∀ s ∈ p.2,
      (cacheGet (initState cache).cache s.sessionId).isSome := by
    intro p hp s hs
    exact h s (groupByName_member_mem sessions p hp s hs)
  have hfold := foldGroups_hits env (groupByName sessions) (initState cache) hmem
  obtain ⟨hc, hgc, hfr, han, hab⟩ := hfold
  have hstate : (runSummarize env cache sessions).state = finalState env cache sessions :=
    runSummarize_state env cache sessions
  have hfinal : finalState env cache sessions =
      (groupByName sessions).foldl (fun st p => processGroup env st p.1 p.2)
        (initState cache) := rfl
  refine ⟨?_, ?_, ?_, ?_, ?_⟩
  · rw [hstate, hfinal, hgc]; rfl
  · rw [runSummarize_savedManifest, hfinal]
    rw [if_neg (by rw [hab]; simp [initState]), if_neg (by rw [han]; simp [initState])]
  · rw [hstate, hfinal, hc]; rfl
  · rw [hstate, hfinal, hab]; rfl
  · intro env2 cache2 sessions2 h2
    exact runSummarize_saved_iff_fresh env2 cache2 sessions2 h2

/-- Witness for C1 at a concrete fully cached run. -/
theorem collect_generate_idempotent_witness :
    (∀ s ∈ [(⟨"A1", "X", "u1"⟩ : Session)],
      (cacheGet [("A1", "cached minutes")] s.sessionId).isSome) ∧
    (runSummarize ⟨fun _ => none, fun _ _ => Except.error "down"⟩
      [("A1", "cached minutes")] [⟨"A1", "X", "u1"⟩]).state.genCalls = 0 ∧
    (runSummarize ⟨fun _ => none, fun _ _ => Except.error "down"⟩
      [("A1", "cached minutes")] [⟨"A1", "X", "u1"⟩]).savedManifest = none := by
  have hh : ∀ s ∈ [(⟨"A1", "X", "u1"⟩ : Session)],
      (cacheGet [("A1", "cached minutes")] s.sessionId).isSome := by decide
  have hc := collect_generate_idempotent
    ⟨fun _ => none, fun _ _ => Except.error "down"⟩
    [("A1", "cached minutes")] [⟨"A1", "X", "u1"⟩] hh
  exact ⟨hh, hc.1, hc.2.1⟩

/-! ### Claim C3: failure semantics of a single item -/

theorem processSessions_of_aborted (env : Env) (l : List Session) :
    ∀ st cur, st.aborted = true → processSessions env (st, cur) l = (st, cur) := by
  induction l with
  | nil => intro st cur _; rfl
  | cons s t ih =>
    intro st cur h
    have hstep : processSessions env (st, cur) (s :: t) =
        processSessions env (processSession env st s cur) t := by
      simp [processSessions]
    rw [hstep, processSession_of_aborted env st s cur h]
    exact ih st cur h

/-- Deleting an item whose artifact is not cached and whose transcript fetch
fails from anywhere in a group leaves the group computation unchanged. -/
theorem processGroup_drop_unavailable (env : Env) (st : RunState) (name : String)
    (l1 : List Session) (s : Session) (l2 : List Session)
    (hc : cacheGet (processSessions env (st, ([] : List PSession)) l1).1.cache s.sessionId = none)
    (hf : env.fetchTranscript s = none) :
    processGroup env st name (l1 ++ s :: l2) = processGroup env st name (l1 ++ l2) := by
  have hdel : processSessions env (st, ([] : List PSession)) (l1 ++ s :: l2) =
      processSessions env (st, ([] : List PSession)) (l1 ++ l2) := by
    rw [processSessions_append, processSessions_append]
    have hstep : processSessions env (processSessions env (st, []) l1) (s :: l2) =
        processSessions env
          (processSession env (processSessions env (st, []) l1).1 s
            (processSessions env (st, []) l1).2) l2 := by
      simp [processSessions]
    rw [hstep, processSession_unavailable env _ s _ hc hf]
  rw [processGroup_eq, processGroup_eq, hdel]

/-- A group all of whose items are uncached and unfetchable leaves the run
state untouched: no group entry is pushed and nothing else changes. -/
theorem processGroup_all_unavailable (env : Env) (st : RunState) (name : String)
    (grp : List Session)
    (h : ∀ s ∈ grp, cacheGet st.cache s.sessionId = none ∧ env.fetchTranscript s = none) :
    processGroup env st name grp = st := by
  have hs : processSessions env (st, ([] : List PSession)) grp = (st, []) := by
    induction grp with
    | nil => rfl
    | cons s t ih =>
      have hstep : processSessions env (st, ([] : List PSession)) (s :: t) =
          processSessions env (processSession env st s []) t := by
        simp [processSessions]
      rw [hstep, processSession_unavailable env st s [] (h s (by simp)).1 (h s (by simp)).2]
      exact ih (fun x hx => h x (by simp [hx]))
  rw [processGroup_eq, hs]
  by_cases ha : st.aborted = true
  · rw [if_pos ha]
  · rw [if_neg (by simpa using ha)]
    rfl

/-- C3 counterexample: in the concrete environment `envC3` the generator
fails for the single item `S1`; the whole run aborts with nothing cached and
no manifest, although the later item `S2` — which succeeds when the run
contains only it — was still pending. So a single item's generate failure
does abort the run instead of merely excluding that item. -/
theorem item_failure_counterexample :
    (runSummarize envC3 [] [⟨"S1", "W1", "r1"⟩, ⟨"S2", "W2", "r2"⟩]).state.aborted = true ∧
    (runSummarize envC3 [] [⟨"S1", "W1", "r1"⟩, ⟨"S2", "W2", "r2"⟩]).state.cache = [] ∧
    (runSummarize envC3 [] [⟨"S1", "W1", "r1"⟩, ⟨"S2", "W2", "r2"⟩]).savedManifest = none ∧
    (runSummarize envC3 [] [⟨"S2", "W2", "r2"⟩]).state.cache = [("S2", "fine")] ∧
    (runSummarize envC3 [] [⟨"S2", "W2", "r2"⟩]).savedManifest =
      some [⟨"W2", [⟨"S2", "r2"⟩]⟩] := by
  decide

/-- C3 (amended). A single item's fetch failure never aborts the run and
only excludes that item: deleting an unavailable item from its group leaves
the whole group computation unchanged. A Generator error, however, aborts
the entire run, not just that item: it sets the abort flag, every later
group is skipped once the flag is set, and an aborted run never saves a
manifest. -/
theorem item_failure_semantics :
    (∀ (env : Env) (st : RunState) (name : String) (l1 : List Session) (s : Session)
        (l2 : List Session),
      cacheGet (processSessions env (st, ([] : List PSession)) l1).1.cache s.sessionId = none →
      env.fetchTranscript s = none →
      processGroup env st name (l1 ++ s :: l2) = processGroup env st name (l1 ++ l2)) ∧
    (∀ (env : Env) (st : RunState) (s : Session) (cur : List PSession) (t e : String),
      st.aborted = false →
      cacheGet st.cache s.sessionId = none →
      env.fetchTranscript s = some t →
      env.generate t s.sessionName = Except.error e →
      (processSession env st s cur).1.aborted = true ∧ (processSession env st s cur).2 = cur) ∧
    (∀ (env : Env) (st : RunState) (name : String) (grp : List Session),
      st.aborted = true → processGroup env st name grp = st) ∧
    (∀ (env : Env) (cache : Cache) (sessions : List Session),
      (runSummarize env cache sessions).state.aborted = true →
      (runSummarize env cache sessions).savedManifest = none) := by
  refine ⟨?_, ?_, ?_, ?_⟩
  · intro env st name l1 s l2 hc hf
    exact processGroup_drop_unavailable env st name l1 s l2 hc hf
  · intro env st s cur t e ha hc hf hg
    simp [processSession, ha, generateSessionMinutes, hc, hf, hg]
  · intro env st name grp h
    rw [processGroup_eq, processSessions_of_aborted env grp st [] h]
    rw [if_pos h]
  · intro env cache sessions h
    rw [runSummarize_state] at h
    rw [runSummarize_savedManifest, if_pos h]

/-- Witness for C3 (amended) at concrete inputs: an unavailable sole item is
dropped without aborting, and `envC3`'s generator error marks the state
aborted. -/
theorem item_failure_semantics_witness :
    processGroup envFetchFail (initState []) "W" ([] ++ (⟨"S1", "W", "r"⟩ : Session) :: []) =
      processGroup envFetchFail (initState []) "W" ([] ++ []) ∧
    (processSession envC3 (initState []) ⟨"S1", "W1", "r1"⟩ []).1.aborted = true := by
  constructor
  · exact item_failure_semantics.1 envFetchFail (initState []) "W" [] ⟨"S1", "W", "r"⟩ []
      (by decide) rfl
  · exact (item_failure_semantics.2.1 envC3 (initState []) ⟨"S1", "W1", "r1"⟩ []
      "transcript" "model error" rfl (by decide) rfl rfl).1

/-! ### Claim C5: partial availability -/

/-- C5. Partial availability: an item whose raw-content fetch fails (and
which has no cached artifact) is silently dropped — removing it from its
group changes nothing about the run — so the group's other successfully
processed items are retained; a group all of whose items fail to fetch
leaves the state unchanged and thus never appears in the manifest. On the
spec's concrete example with `envOnlyA1` (only `A1` fetchable), group `X`
retains only `A1` and group `Y` is absent from the saved manifest. -/
theorem partial_availability :
    (∀ (env : Env) (st : RunState) (name : String) (l1 : List Session) (s : Session)
        (l2 : List Session),
      cacheGet (processSessions env (st, ([] : List PSession)) l1).1.cache s.sessionId = none →
      env.fetchTranscript s = none →
      processGroup env st name (l1 ++ s :: l2) = processGroup env st name (l1 ++ l2)) ∧
    (∀ (env : Env) (st : RunState) (name : String) (grp : List Session),
      (∀ s ∈ grp, cacheGet st.cache s.sessionId = none ∧ env.fetchTranscript s = none) →
      processGroup env st name grp = st) ∧
    (runSummarize envOnlyA1 []
        [⟨"A1", "X", "u1"⟩, ⟨"A2", "X", "u2"⟩, ⟨"B1", "Y", "u3"⟩]).savedManifest =
      some [⟨"X", [⟨"A1", "u1"⟩]⟩] := by
  refine ⟨?_, ?_, ?_⟩
  · intro env st name l1 s l2 hc hf
    exact processGroup_drop_unavailable env st name l1 s l2 hc hf
  · intro env st name grp h
    exact processGroup_all_unavailable env st name grp h
  · decide

/-- Witness for C5 at concrete inputs: a sole unfetchable item is dropped
and its group leaves the state untouched. -/
theorem partial_availability_witness :
    processGroup envFetchFail (initState []) "G" ([] ++ (⟨"Z1", "G", "r9"⟩ : Session) :: []) =
      processGroup envFetchFail (initState []) "G" ([] ++ []) ∧
    processGroup envFetchFail (initState []) "G" [⟨"Z1", "G", "r9"⟩] = initState [] := by
  constructor
  · exact partial_availability.1 envFetchFail (initState []) "G" [] ⟨"Z1", "G", "r9"⟩ []
      (by decide) rfl
  · exact partial_availability.2.1 envFetchFail (initState []) "G" [⟨"Z1", "G", "r9"⟩]
      (by decide)

/-! ### Claim C6: grouping correctness -/

/-- C6. Grouping correctness: the `sessionsByName` map has pairwise distinct
keys (exactly one group per distinct display name), every listed item's name
is a key, each key's member list is exactly the input items bearing that
name in original input order, and on the spec's three-item example the
saved manifest holds exactly the two expected ordered groups. -/
theorem grouping_correctness (l : List Session) :
    ((groupByName l).map Prod.fst).Nodup ∧
    (∀ (name : String) (grpSessions : List Session), (name, grpSessions) ∈ groupByName l →
      grpSessions = l.filter (fun t => t.sessionName == name)) ∧
    (∀ t ∈ l, t.sessionName ∈ (groupByName l).map Prod.fst) ∧
    (runSummarize envOk []
        [⟨"A1", "X", "u1"⟩, ⟨"A2", "X", "u2"⟩, ⟨"B1", "Y", "u3"⟩]).savedManifest =
      some [⟨"X", [⟨"A1", "u1"⟩, ⟨"A2", "u2"⟩]⟩, ⟨"Y", [⟨"B1", "u3"⟩]⟩] := by
  obtain ⟨hv, hc, _, hn⟩ := groupByName_invariant l
  refine ⟨hn, ?_, hc, by decide⟩
  intro name grpSessions hmem
  exact hv (name, grpSessions) hmem

/-- Witness for C6 at the spec's concrete item list. -/
theorem grouping_correctness_witness :
    ((("X" : String), [(⟨"A1", "X", "u1"⟩ : Session), ⟨"A2", "X", "u2"⟩]) ∈
      groupByName [⟨"A1", "X", "u1"⟩, ⟨"A2", "X", "u2"⟩, ⟨"B1", "Y", "u3"⟩]) ∧
    [(⟨"A1", "X", "u1"⟩ : Session), ⟨"A2", "X", "u2"⟩] =
      List.filter (fun t => t.sessionName == "X")
        [⟨"A1", "X", "u1"⟩, ⟨"A2", "X", "u2"⟩, ⟨"B1", "Y", "u3"⟩] := by
  have hmem : ((("X" : String), [(⟨"A1", "X", "u1"⟩ : Session), ⟨"A2", "X", "u2"⟩]) ∈
      groupByName [⟨"A1", "X", "u1"⟩, ⟨"A2", "X", "u2"⟩, ⟨"B1", "Y", "u3"⟩]) := by decide
  exact ⟨hmem,
    (grouping_correctness [⟨"A1", "X", "u1"⟩, ⟨"A2", "X", "u2"⟩, ⟨"B1", "Y", "u3"⟩]).2.1
      "X" [⟨"A1", "X", "u1"⟩, ⟨"A2", "X", "u2"⟩] hmem⟩

/-! ### Claim C9: malformed timestamp policy -/

theorem dateTimeHeaderOf_empty_iff (dateStr timeStr : Option String) :
    dateTimeHeaderOf dateStr timeStr = "" ↔ timestampShapeOk dateStr timeStr = false := by
  cases dateStr with
  | none => simp [dateTimeHeaderOf, timestampShapeOk]
  | some d =>
    cases timeStr with
    | none => simp [dateTimeHeaderOf, timestampShapeOk]
    | some t =>
      simp only [dateTimeHeaderOf, timestampShapeOk]
      by_cases hb : ((!(d == "")) && (!(t == "")) && (d.length == 8) && (t.length == 4)) = true
      · rw [if_pos hb, hb]
        simp only [Bool.true_eq_false, iff_false]
        intro hcontra
        have hlen := congrArg String.length hcontra
        simp only [String.length_append, String.length_empty] at hlen
        have h23 : ("**Session Date/Time:** " : String).length = 23 := by decide
        rw [h23] at hlen
        omega
      · rw [if_neg hb]
        simp only [Bool.not_eq_true] at hb
        rw [hb]
        simp

/-- C9 counterexample: the session id `IETF123-tls-20259923-1230` has a
malformed timestamp (month 99), yet the produced per-item header is not
omitted — it is a non-empty header containing the text `undefined`. -/
theorem malformed_timestamp_counterexample :
    (parseSessionId "IETF123-tls-20259923-1230").2 =
      "**Session Date/Time:** 23 undefined 2025 12:30\n\n" ∧
    (parseSessionId "IETF123-tls-20259923-1230").2 ≠ "" := by
  decide

/-- C9 (amended). The Assembler omits the per-item date/time header exactly
when the identifier's last two `-`-separated segments fail the length-based
shape check (second-to-last present with 8 characters, last with 4); a
timestamp segment of the right lengths but invalid digits still yields a
(garbled, possibly `undefined`-containing) non-empty header. `parseSessionId`
is a total function of the identifier string, so it never fails the run. -/
theorem malformed_timestamp_policy (sessionId : String) :
    ((parseSessionId sessionId).2 = "" ↔ sessionIdShapeOk sessionId = false) :=
  dateTimeHeaderOf_empty_iff _ _

/-! ### Claim C7: combination ordering -/

theorem assembleItems_ok (minutes : Nat → String → Option String) (m : Nat)
    (l : List PSession) (f : PSession → String)
    (h : ∀ s ∈ l, minutes m s.sessionId = some (f s)) :
    assembleItems minutes m l =
      Except.ok (l.map (fun s => ((parseSessionId s.sessionId).2 ++ f s, s.recordingUrl))) := by
  induction l with
  | nil => rfl
  | cons s t ih =>
    have hs := h s (by simp)
    have ht := ih (fun x hx => h x (by simp [hx]))
    simp [assembleItems, getCachedMinutes, hs, ht]

/-- C7. Combination ordering: whenever every member of a group has a cached
artifact, Assemble produces exactly the members' headed artifacts joined in
stored order (never re-sorted) with the fixed separator, plus the recording
links in the same order; and on the spec's example — members `A1` (content
`one`) and `A2` (content `two`), ids without timestamps — the combined
output is exactly `one\n\n---\n\ntwo`. -/
theorem combination_ordering :
    (∀ (minutes : Nat → String → Option String) (m : Nat) (g : Group)
        (f : PSession → String),
      (∀ s ∈ g.sessions, minutes m s.sessionId = some (f s)) →
      assembleGroup minutes m g =
        Except.ok
          (String.intercalate "\n\n---\n\n"
            (g.sessions.map (fun s => (parseSessionId s.sessionId).2 ++ f s)),
           g.sessions.map PSession.recordingUrl)) ∧
    assembleGroup
        (fun _ sid => if sid = "A1" then some "one" else
          if sid = "A2" then some "two" else none) 1
        ⟨"X", [⟨"A1", "u1"⟩, ⟨"A2", "u2"⟩]⟩ =
      Except.ok ("one\n\n---\n\ntwo", ["u1", "u2"]) := by
  constructor
  · intro minutes m g f h
    rw [assembleGroup, assembleItems_ok minutes m g.sessions f h]
    simp [List.map_map]
    rfl
  · rfl

/-- Witness for C7: the general ordering statement applied at the concrete
two-member group. -/
theorem combination_ordering_witness :
    assembleGroup
        (fun _ sid => if sid = "A2" then some "beta" else some "alpha") 7
        ⟨"W", [⟨"A1", "v1"⟩, ⟨"A2", "v2"⟩]⟩ =
      Except.ok
        (String.intercalate "\n\n---\n\n"
          (([⟨"A1", "v1"⟩, ⟨"A2", "v2"⟩] : List PSession).map
            (fun s => (parseSessionId s.sessionId).2 ++
              (fun x => if x.sessionId = "A2" then "beta" else "alpha") s)),
         ([⟨"A1", "v1"⟩, ⟨"A2", "v2"⟩] : List PSession).map PSession.recordingUrl) :=
  combination_ordering.1
    (fun _ sid => if sid = "A2" then some "beta" else some "alpha") 7
    ⟨"W", [⟨"A1", "v1"⟩, ⟨"A2", "v2"⟩]⟩
    (fun x => if x.sessionId = "A2" then "beta" else "alpha")
    (by decide)

/-! ### Claim C8: root index never sees the cached collections -/

theorem childNameIn_site_minutes (rest : String) :
    childNameIn "site" ("site/minutes/" ++ rest) = some "minutes" := rfl

theorem childNameIn_meetingOutput (m : Nat) (rest : String) :
    childNameIn "site" (meetingOutputDir m ++ "/" ++ rest) = some "minutes" := rfl

theorem rootIndexMeetings_eq_nil (entries : List DirEntry)
    (h : ∀ e ∈ entries, startsWithIetf e.name = false) :
    rootIndexMeetings entries = [] := by
  unfold rootIndexMeetings
  have hf : entries.filter (fun e => e.isDir && startsWithIetf e.name) = [] := by
    rw [List.filter_eq_nil_iff]
    intro e he
    simp [h e he]
  rw [hf]
  rfl

/-- C8 counterexample: collections 3, 12 and 101 are present in the cache
(the enumeration returns them, ascending), yet the root index does not
render them: every path the output stage writes for these meetings has
`minutes` (or, for the root index file itself, `index.md`) as its immediate
child of `site`, so the `site` listing `generateRootIndex()` scans has no
`ietf*` entry and the rendered section is the `No meetings processed yet.`
fallback — not the claimed sorted list. -/
theorem root_index_ordering_counterexample :
    getCachedMeetingNumbers [⟨"ietf12", true⟩, ⟨"ietf3", true⟩, ⟨"ietf101", true⟩] =
      [3, 12, 101] ∧
    childrenIn "site"
        (meetingOutputPaths 3 ["tcpm"] ++ meetingOutputPaths 12 ["tcpm"] ++
          meetingOutputPaths 101 ["tcpm"] ++ [rootIndexDest]) =
      ["minutes", "minutes", "minutes", "minutes", "minutes", "minutes",
       "minutes", "minutes", "minutes", "minutes", "minutes", "minutes",
       "index.md"] ∧
    generateRootIndexSection
        [⟨"about.md", false⟩, ⟨"minutes", true⟩, ⟨"index.md", false⟩] =
      "No meetings processed yet.\n" ∧
    "No meetings processed yet.\n" ≠
      "- [IETF 3](minutes/ietf3/index.html)\n- [IETF 12](minutes/ietf12/index.html)\n" ++
        "- [IETF 101](minutes/ietf101/index.html)\n" := by
  decide

/-- C8 (amended). The enumeration of cached collections returns the meeting
numbers sorted numerically ascending — exactly the numbers parsed from the
`ietfN` cache directories — and the root-index scan numerically sorts
whatever `ietfN` directories it finds. But `generateRootIndex()` scans the
`site` directory itself, while every file the output stage writes lies below
`site/minutes/` (immediate child of `site`: the name `minutes`) or is the
root index `site/index.md` (immediate child `index.md`), neither of which is
`ietf`-named: over any `site` listing free of `ietf`-named entries — which
is what the repository ships and what the output stage's writes produce —
the scan is empty and the root index renders `No meetings processed yet.`,
whatever the cache holds. -/
theorem root_index_ordering_amended (cacheEntries siteEntries : List DirEntry)
    (hsite : ∀ e ∈ siteEntries, startsWithIetf e.name = false) :
    List.Sorted (fun a b => a ≤ b) (getCachedMeetingNumbers cacheEntries) ∧
    (getCachedMeetingNumbers cacheEntries).Perm
      ((cacheEntries.filter (fun e => e.isDir && startsWithIetf e.name)).filterMap
        (fun e => parseIetfDir e.name)) ∧
    (∀ entries2 : List DirEntry,
      List.Sorted (fun a b => a ≤ b) (rootIndexMeetings entries2)) ∧
    (∀ (m : Nat) (rest : String),
      childNameIn "site" (meetingOutputDir m ++ "/" ++ rest) = some "minutes") ∧
    childNameIn "site" rootIndexDest = some "index.md" ∧
    startsWithIetf "minutes" = false ∧
    startsWithIetf "index.md" = false ∧
    rootIndexMeetings siteEntries = [] ∧
    generateRootIndexSection siteEntries = "No meetings processed yet.\n" := by
  refine ⟨List.sorted_insertionSort _ _, List.perm_insertionSort _ _,
    fun entries2 => List.sorted_insertionSort _ _,
    fun m rest => childNameIn_meetingOutput m rest, rfl, by decide, by decide,
    rootIndexMeetings_eq_nil siteEntries hsite, ?_⟩
  unfold generateRootIndexSection
  rw [rootIndexMeetings_eq_nil siteEntries hsite]
  rfl

/-- Witness for C8 (amended) at the concrete `site` listing left behind by a
completed run over a populated cache. -/
theorem root_index_ordering_amended_witness :
    (∀ e ∈ [(⟨"about.md", false⟩ : DirEntry), ⟨"minutes", true⟩, ⟨"index.md", false⟩],
      startsWithIetf e.name = false) ∧
    generateRootIndexSection
        [⟨"about.md", false⟩, ⟨"minutes", true⟩, ⟨"index.md", false⟩] =
      "No meetings processed yet.\n" := by
  have hs : ∀ e ∈ [(⟨"about.md", false⟩ : DirEntry), ⟨"minutes", true⟩, ⟨"index.md", false⟩],
      startsWithIetf e.name = false := by decide
  exact ⟨hs,
    (root_index_ordering_amended [⟨"ietf12", true⟩, ⟨"ietf3", true⟩, ⟨"ietf101", true⟩]
      [⟨"about.md", false⟩, ⟨"minutes", true⟩, ⟨"index.md", false⟩] hs).2.2.2.2.2.2.2.2⟩

/-! ### Claim C2: manifest replacement is not atomic -/

/-- C2 counterexample: while `saveCacheManifest` replaces the manifest of
collection 1, a read can observe the torn content `NEW` — neither the old
manifest nor the new one — because the write goes directly to the final
path; moreover none of the performed operations is a rename, so no
write-to-temporary-then-rename happens. -/
theorem atomic_manifest_counterexample :
    (some "NEW" ∈ observedAt (manifestPath 1) [(manifestPath 1, some "OLD-MANIFEST")]
      (saveCacheManifestOps 1 "NEW-MANIFEST-CONTENT")) ∧
    some "NEW" ≠ some "OLD-MANIFEST" ∧
    some "NEW" ≠ some "NEW-MANIFEST-CONTENT" ∧
    (saveCacheManifestOps 1 "NEW-MANIFEST-CONTENT").all (fun op => !(isRename op)) = true := by
  decide

/-- C2 (amended). `saveCacheManifest` replaces the manifest by creating the
cache directory and then issuing one direct, in-place `writeFile` of the
serialized manifest to its final path: after the operations complete the
manifest holds the new content, but no temporary location and no rename is
used, and under a non-atomic write every byte-length truncation of the new
content is observable at the manifest path while the write is in flight. -/
theorem manifest_write_not_atomic (m : Nat) (content : String) (fs : Fs) :
    saveCacheManifestOps m content =
      [FsOp.mkdirRec (getCacheDir m), FsOp.write (manifestPath m) content] ∧
    (saveCacheManifestOps m content).all (fun op => !(isRename op)) = true ∧
    fsGet ((saveCacheManifestOps m content).foldl applyOp fs) (manifestPath m) =
      some content ∧
    (∀ k, k ≤ content.length →
      some (String.mk (content.data.take k)) ∈
        observedAt (manifestPath m) fs (saveCacheManifestOps m content)) := by
  refine ⟨rfl, rfl, ?_, ?_⟩
  · show fsGet (fsSet fs (manifestPath m) content) (manifestPath m) = some content
    simp [fsGet, fsSet]
  · intro k hk
    simp only [saveCacheManifestOps, observedAt, midContentsAt, applyOp, List.nil_append,
      beq_self_eq_true, if_pos, List.mem_cons, List.mem_append, List.mem_map, List.mem_range]
    exact Or.inr (Or.inl (Or.inr ⟨k, by omega, rfl⟩))

/-- Witness for C2 (amended): the torn prefix `NEW` of the new manifest
content is observable during a concrete save over an old manifest. -/
theorem manifest_write_not_atomic_witness :
    some (String.mk (("NEW-MANIFEST-CONTENT" : String).data.take 3)) ∈
      observedAt (manifestPath 1) [(manifestPath 1, some "OLD-MANIFEST")]
        (saveCacheManifestOps 1 "NEW-MANIFEST-CONTENT") :=
  (manifest_write_not_atomic 1 "NEW-MANIFEST-CONTENT"
    [(manifestPath 1, some "OLD-MANIFEST")]).2.2.2 3 (by decide)

/-! ### Claim C4: missing manifest on Assemble -/

/-- C4 counterexample: with collection 1 lacking a manifest and collection 2
fully assembleable, the output stage does not skip collection 1 — it fails
with the `ENOENT` read error, so collection 2 is never produced, although
assembling collection 2 alone succeeds. -/
theorem missing_manifest_counterexample :
    runOutput (fun m => if m = 2 then some [⟨"X", [⟨"A1", "u"⟩]⟩] else none)
        (fun _ sid => if sid = "A1" then some "one" else none) [1, 2] =
      Except.error "ENOENT: .manifest.json" ∧
    assembleMeeting (fun m => if m = 2 then some [⟨"X", [⟨"A1", "u"⟩]⟩] else none)
        (fun _ sid => if sid = "A1" then some "one" else none) 2 =
      Except.ok [("X", "one", ["u"])] :=
  ⟨rfl, rfl⟩

/-- C4 (amended). During the output stage, a collection whose manifest is
missing is not skipped: `loadCacheManifest`'s read fails, the error
propagates uncaught (the top-level handler exits non-zero), and the
collections after it are never assembled — the run's result is the `ENOENT`
error no matter what follows. -/
theorem missing_manifest_aborts (manifests : Nat → Option (List Group))
    (minutes : Nat → String → Option String) (pre post : List Nat) (m : Nat)
    (hmiss : manifests m = none)
    (hpre : ∀ m2 ∈ pre, ∃ v, assembleMeeting manifests minutes m2 = Except.ok v) :
    runOutput manifests minutes (pre ++ m :: post) =
      Except.error "ENOENT: .manifest.json" := by
  induction pre with
  | nil =>
    have hm : assembleMeeting manifests minutes m =
        Except.error "ENOENT: .manifest.json" := by
      unfold assembleMeeting loadCacheManifest
      rw [hmiss]
    simp only [List.nil_append, runOutput, hm]
  | cons p t ih =>
    obtain ⟨v, hv⟩ := hpre p (by simp)
    have ht := ih (fun x hx => hpre x (by simp [hx]))
    simp only [List.cons_append, runOutput, hv, List.append_eq, ht]

/-- Witness for C4 (amended) at a concrete missing manifest. -/
theorem missing_manifest_aborts_witness :
    runOutput (fun _ => none) (fun _ _ => none) ([] ++ 5 :: []) =
      Except.error "ENOENT: .manifest.json" :=
  missing_manifest_aborts (fun _ => none) (fun _ _ => none) [] [] 5 rfl
    (by intro m2 hm; exact absurd hm (List.not_mem_nil m2))

/-! ### Claim C10: output filename collision -/

/-- C10. Output filename collision: `sanitizeSessionName` is not injective —
the distinct display names `Tls+X` and `tls x` both sanitize to `tls-x` — and
whenever two names share a sanitization, `saveMinutes` writes both groups to
the same `.md` and `.txt` paths, the later call silently overwriting the
earlier group's published content. -/
theorem filename_collision :
    ("Tls+X" ≠ "tls x" ∧ sanitizeSessionName "Tls+X" = "tls-x" ∧
      sanitizeSessionName "tls x" = "tls-x") ∧
    (∀ (n1 n2 c1 c2 dir : String) (u1 u2 : List String),
      sanitizeSessionName n1 = sanitizeSessionName n2 →
      (saveMinutesFiles n1 c1 dir u1).map Prod.fst =
        (saveMinutesFiles n2 c2 dir u2).map Prod.fst) ∧
    (∀ (fs : Fs) (n1 n2 c1 c2 dir : String) (u1 u2 : List String),
      sanitizeSessionName n1 = sanitizeSessionName n2 →
      fsGet
        (fsWriteAll (fsWriteAll fs (saveMinutesFiles n1 c1 dir u1))
          (saveMinutesFiles n2 c2 dir u2))
        (dir ++ "/" ++ sanitizeSessionName n1 ++ ".txt") = some c2) := by
  refine ⟨by decide, ?_, ?_⟩
  · intro n1 n2 c1 c2 dir u1 u2 h
    simp [saveMinutesFiles, h]
  · intro fs n1 n2 c1 c2 dir u1 u2 h
    simp only [saveMinutesFiles, fsWriteAll, List.foldl_cons, List.foldl_nil, fsSet]
    rw [h]
    simp [fsGet]

/-- Witness for C10: publishing the group `Tls+X` and then the group `tls x`
leaves only the second group's text at the shared output path. -/
theorem filename_collision_witness :
    fsGet
      (fsWriteAll (fsWriteAll [] (saveMinutesFiles "Tls+X" "first" "out" []))
        (saveMinutesFiles "tls x" "second" "out" []))
      ("out" ++ "/" ++ sanitizeSessionName "Tls+X" ++ ".txt") = some "second" :=
  filename_collision.2.2 [] "Tls+X" "tls x" "first" "second" "out" [] [] (by decide)

end AutoMinutes
